import Mathlib

/-!
Verification of the flymate worker core (`bot/worker.py`,
`bot/db/repo_subscriptions.py`) against its specification.

The Python source is shallowly embedded: calendar dates are triples of
naturals ordered lexicographically (as Python `datetime.date` is), prices
are rationals, the Redis price-floor cache is a lookup function
`String → Option ℚ`, the external pricing API and the Telegram delivery
channel are oracles supplied in an environment record, and one processing
pass of a subscription is a pure function from that environment and the
subscription to a trace of its observable effects (messages attempted,
cache writes, deletion, schedule bump).
-/

/-- A calendar date, as Python `datetime.date(year, month, day)`. -/
structure Date where
  year : Nat
  month : Nat
  day : Nat
deriving DecidableEq, Repr

/-- A real calendar date: month in 1..12, day in 1..31. -/
def validDate (d : Date) : Prop :=
  1 ≤ d.month ∧ d.month ≤ 12 ∧ 1 ≤ d.day ∧ d.day ≤ 31

instance (d : Date) : Decidable (validDate d) := by
  unfold validDate; infer_instance

/-- Python `date` comparison: lexicographic on (year, month, day). -/
def dateLt (a b : Date) : Bool :=
  a.year < b.year ||
    (a.year == b.year &&
      (a.month < b.month || (a.month == b.month && a.day < b.day)))

/-- Python `date` comparison `<=`. -/
def dateLe (a b : Date) : Bool :=
  dateLt a b || a == b

/-- A departure timestamp: a calendar date plus a time-of-day component
(the worker only ever uses the date portion for grouping and filtering,
and hour/minute for display). -/
structure DateTime where
  date : Date
  hour : Nat
  minute : Nat
deriving DecidableEq, Repr

/-- Zero-padded two-digit rendering, as `strftime` `%m` / `%d` on
in-range values. -/
def pad2 (n : Nat) : String :=
  if n < 10 then "0" ++ toString n else toString n

/-- Rendering `cur.strftime("%Y-%m")` on the first-of-month date `(y, m, 1)`. -/
def fmtYM (y m : Nat) : String :=
  toString y ++ "-" ++ pad2 m

/-- Rendering `departure_date.strftime("%Y-%m-%d")`. -/
def dateStr (d : Date) : String :=
  toString d.year ++ "-" ++ pad2 d.month ++ "-" ++ pad2 d.day

/-! Section RangeSplitter: `month_span` (worker.py lines 67-79)

The source is a while loop over first-of-month dates
`cur = date(d1.year, d1.month, 1)`; since both loop variables always
carry day 1, the loop state is embedded as the (year, month) pair.
The loop is embedded with an explicit fuel bound on the number of
iterations; `month_pairs_eq` discharges the fuel bound on valid dates,
so the embedding agrees with the unbounded source loop.
-/

/-- The month-advance step of the `month_span` loop:
`date(cur.year + 1, 1, 1)` when `cur.month == 12`, else
`date(cur.year, cur.month + 1, 1)`. -/
def next_month (ym : Nat × Nat) : Nat × Nat :=
  if ym.2 == 12 then (ym.1 + 1, 1) else (ym.1, ym.2 + 1)

/-- The loop guard `cur <= last` between first-of-month dates, i.e.
lexicographic comparison of (year, month). -/
def monthLe (a b : Nat × Nat) : Bool :=
  a.1 < b.1 || (a.1 == b.1 && a.2 ≤ b.2)

/-- The `month_span` while loop, collecting the visited (year, month)
pairs; `fuel` bounds the iteration count. -/
def month_span_go : Nat → Nat × Nat → Nat × Nat → List (Nat × Nat)
  | 0, _, _ => []
  | fuel + 1, cur, last =>
    if monthLe cur last then cur :: month_span_go fuel (next_month cur) last
    else []

/-- The (year, month) pairs visited by `month_span d1 d2`. -/
def month_pairs (d1 d2 : Date) : List (Nat × Nat) :=
  month_span_go ((d2.year + 2) * 12) (d1.year, d1.month) (d2.year, d2.month)

/-- Embedding of `month_span(d1, d2)` (worker.py): the `YYYY-MM` tokens of the months
covering the inclusive interval, built by the loop above. -/
def month_span (d1 d2 : Date) : List String :=
  (month_pairs d1 d2).map (fun ym => fmtYM ym.1 ym.2)

/-- Linear index of a (year, month) pair. -/
def mIdx (ym : Nat × Nat) : Nat := ym.1 * 12 + (ym.2 - 1)

/-- Decode a linear month index back to a (year, month) pair. -/
def ymOfIdx (n : Nat) : Nat × Nat := (n / 12, n % 12 + 1)

/-- Month component within range. -/
def validYM (ym : Nat × Nat) : Prop := 1 ≤ ym.2 ∧ ym.2 ≤ 12

/-- Strict chronological order on (year, month) pairs (lexicographic). -/
def monthLt (a b : Nat × Nat) : Bool :=
  a.1 < b.1 || (a.1 == b.1 && a.2 < b.2)

/-! Section Offers, subscriptions and the oracle environment -/

/-- One fare offer from the pricing API `data` array: the fields the
worker reads, each possibly missing from the raw JSON. -/
structure Offer where
  price : Option ℚ
  departure_at : Option DateTime
  airline : Option String
  transfers : Option Nat
  duration : Option Nat
  origin : Option String
  destination : Option String
  link : Option String
deriving DecidableEq, Repr

/-- A `FlightSubscription` row as the worker reads it
(`bot/db/models.py` / `repo_subscriptions.py`); timestamps in minutes. -/
structure FlightSubscription where
  id : Nat
  user_id : Nat
  origin : String
  destination : String
  range_from : Date
  range_to : Date
  direct : Bool
  max_price : ℚ
  currency : String
  check_interval_minutes : Nat
  active : Bool
  last_checked_at : Option Nat
  next_check_at : Option Nat
deriving DecidableEq, Repr

/-- Embedding of `price_tracking_key` (worker.py lines 82-89). -/
def price_tracking_key (sub_id : Nat) (origin destination departure_date : String)
    (direct : Bool) : String :=
  "subs:" ++ toString sub_id ++ ":minprice:" ++ origin ++ "_" ++ destination ++ "_"
    ++ departure_date ++ "_" ++ (if direct then "direct" else "transfer")

/-- Embedding of `build_deeplink` (worker.py lines 98-103); Python `if not
aviasales_path` also treats the empty string as absent. -/
def build_deeplink (aviasales_path : Option String) : Option String :=
  match aviasales_path with
  | none => none
  | some p => if p = "" then none else some ("https://aviasales.ru" ++ p)

/-- Embedding of `build_search_url` (worker.py lines 106-114); in the embedding the
departure timestamp stays parsed, so `dtparse.isoparse` is the identity
and `%d` / `%m` are `pad2` of the date fields. -/
def build_search_url (origin destination : String) (dep : Option DateTime) : String :=
  match dep with
  | some dt => "https://www.aviasales.com/search/" ++ origin ++ pad2 dt.date.day
      ++ pad2 dt.date.month ++ destination ++ "21"
  | none => ""

/-! Section PricingClient: `fetch_prices_for_month` (worker.py lines 157-192) -/

/-- Outcome of one HTTP attempt against the pricing API. -/
inductive HttpOutcome where
  | timeout
  | response (status : Nat) (data : List Offer)
deriving DecidableEq, Repr

/-- Embedding of `fetch_prices_for_month`: issues exactly one GET (attempt 0 of the
oracle); a request timeout propagates as an exception, any non-200
status raises `RuntimeError("Aviasales {status}: ...")` immediately, and
a 200 returns the body's `data` array.  There is no retry loop. -/
def fetch_prices_for_month (attempts : Nat → HttpOutcome) : Except String (List Offer) :=
  match attempts 0 with
  | .timeout => .error "timeout"
  | .response status data =>
    if status = 200 then .ok data
    else .error ("Aviasales " ++ toString status)

/-- Modelled from the spec: the retrying pricing client of spec section
4.2, which is absent from `worker.py` — "on a server-side transient
status (e.g. 502/503) or request timeout, retries up to 3 attempts total
with a fixed inter-attempt delay", then signals a transient failure; any
other non-success status fails immediately with no retry.  Returns the
result together with the number of attempts consumed. -/
def fetch_with_retry_spec_go (attempts : Nat → HttpOutcome) :
    Nat → Nat → Except String (List Offer) × Nat
  | i, 0 => (.error "transient: no attempts", i)
  | i, left + 1 =>
    match attempts i with
    | .timeout =>
      if left = 0 then (.error "transient: timeout", i + 1)
      else fetch_with_retry_spec_go attempts (i + 1) left
    | .response status data =>
      if status = 200 then (.ok data, i + 1)
      else if status = 502 ∨ status = 503 then
        if left = 0 then (.error ("transient: " ++ toString status), i + 1)
        else fetch_with_retry_spec_go attempts (i + 1) left
      else (.error ("fatal: " ++ toString status), i + 1)

/-- Modelled from the spec: entry point of the spec's retrying client —
3 attempts total, starting at attempt 0. -/
def fetch_with_retry_spec (attempts : Nat → HttpOutcome) :
    Except String (List Offer) × Nat :=
  fetch_with_retry_spec_go attempts 0 3

/-! Section OfferFilter: the grouping loop (worker.py lines 264-289) -/

/-- The per-offer filter of the grouping loop: returns the departure
date when the offer survives, `none` when it is dropped (missing price,
price strictly above the ceiling, missing departure timestamp, or
departure date outside `[range_from, range_to]`). -/
def keepOffer (sub : FlightSubscription) (o : Offer) : Option Date :=
  match o.price with
  | none => none
  | some p =>
    if sub.max_price < p then none
    else match o.departure_at with
      | none => none
      | some dt =>
        if dateLt dt.date sub.range_from || dateLt sub.range_to dt.date then none
        else some dt.date

/-- The insertion-ordered dict update
`offers_by_date.setdefault(date_str, []).append(f)` pattern of the
source (Python dicts preserve insertion order). -/
def insertGroup (gs : List (String × List Offer)) (k : String) (o : Offer) :
    List (String × List Offer) :=
  match gs with
  | [] => [(k, [o])]
  | (k', os) :: rest =>
    if k' = k then (k', os ++ [o]) :: rest
    else (k', os) :: insertGroup rest k o

/-- The grouping loop: survivors grouped under the `YYYY-MM-DD`
rendering of their departure date, in insertion order. -/
def groupOffers (sub : FlightSubscription) (offers : List Offer) :
    List (String × List Offer) :=
  offers.foldl
    (fun gs o =>
      match keepOffer sub o with
      | none => gs
      | some d => insertGroup gs (dateStr d) o)
    []

/-! Section PriceFloorCache decision and collection (worker.py lines 294-375) -/

/-- Python `float(x.get("price", float("inf")))`: the `min` key, with a
missing price at infinity. -/
def priceKey (o : Offer) : WithTop ℚ :=
  match o.price with
  | some p => (p : WithTop ℚ)
  | none => ⊤

/-- Python `min(date_offers, key=priceKey)`: the first element whose key
is minimal (`min` keeps the current best unless a strictly smaller key
appears). -/
def minByPrice : List Offer → Option Offer
  | [] => none
  | o :: os =>
    some (os.foldl (fun best x => if priceKey x < priceKey best then x else best) o)

/-- One queued notification: the dict appended to
`notifications_to_send` (worker.py lines 349-362). -/
structure Notif where
  offer : Offer
  new_price : ℚ
  old_price : Option ℚ
  tracking_key : String
  airline : Option String
  transfers : Option Nat
  duration : Option Nat
  origin : Option String
  destination : Option String
  dep : Option DateTime
  link : Option String
  search_link : String
deriving DecidableEq, Repr

/-- The per-date decision (worker.py lines 294-362): select the cheapest
offer of the date, look up the stored price floor under
`price_tracking_key`, and return the queued notification when the
decision is notify (`none` = suppressed).  The two leading `none`
branches are unreachable on worker inputs: groups produced by
`groupOffers` are nonempty and all their offers carry prices (Python
would raise there). -/
def decideDate (cache : String → Option ℚ) (sub : FlightSubscription)
    (date_str : String) (date_offers : List Offer) : Option Notif :=
  match minByPrice date_offers with
  | none => none
  | some min_offer =>
    match min_offer.price with
    | none => none
    | some new_price =>
      let tracking_key :=
        price_tracking_key sub.id sub.origin sub.destination date_str sub.direct
      let mk : Option ℚ → Notif := fun old =>
        { offer := min_offer, new_price := new_price, old_price := old,
          tracking_key := tracking_key, airline := min_offer.airline,
          transfers := min_offer.transfers, duration := min_offer.duration,
          origin := min_offer.origin, destination := min_offer.destination,
          dep := min_offer.departure_at, link := build_deeplink min_offer.link,
          search_link := build_search_url (min_offer.origin.getD "None")
            (min_offer.destination.getD "None") min_offer.departure_at }
      match cache tracking_key with
      | none => some (mk none)
      | some old_price =>
        if new_price < old_price then
          if (old_price - new_price) / old_price * 100 ≥ 2 then some (mk (some old_price))
          else none
        else none

/-- The per-date loop within one month: append notify decisions in
discovery order, breaking as soon as 10 notifications are queued
(the `len(notifications_to_send) >= 10` check sits right after the
append). -/
def collectGroups (cache : String → Option ℚ) (sub : FlightSubscription) :
    List (String × List Offer) → List Notif → List Notif
  | [], acc => acc
  | (date_str, date_offers) :: rest, acc =>
    match decideDate cache sub date_str date_offers with
    | none => collectGroups cache sub rest acc
    | some n =>
      let acc' := acc ++ [n]
      if 10 ≤ acc'.length then acc'
      else collectGroups cache sub rest acc'

/-- The per-month loop (worker.py lines 252-375): fetch a month (a fetch
error is logged and skips just that month), group and decide its dates,
and leave the whole loop once 10 notifications are queued.  Returns the
queue together with the months for which a fetch was attempted. -/
def collectMonths (fetch : String → Except String (List Offer))
    (cache : String → Option ℚ) (sub : FlightSubscription) :
    List String → List Notif → List Notif × List String
  | [], acc => (acc, [])
  | mon :: rest, acc =>
    match fetch mon with
    | .error _ =>
      let r := collectMonths fetch cache sub rest acc
      (r.1, mon :: r.2)
    | .ok offers =>
      let acc' := collectGroups cache sub (groupOffers sub offers) acc
      if 10 ≤ acc'.length then (acc', [mon])
      else
        let r := collectMonths fetch cache sub rest acc'
        (r.1, mon :: r.2)

/-! Section NotificationBatcher and delivery (worker.py lines 377-466) -/

/-- Helper for `chunk5`; `fuel` bounds the number of slices taken (the
list length always suffices, see `chunk5_go_flatten`). -/
def chunk5_go : Nat → List Notif → List (List Notif)
  | 0, _ => []
  | _, [] => []
  | fuel + 1, x :: xs => (x :: xs).take 5 :: chunk5_go fuel ((x :: xs).drop 5)

/-- The batch slicing
`notifications_to_send[i:i+5] for i in range(0, len, 5)`. -/
def chunk5 (l : List Notif) : List (List Notif) := chunk5_go l.length l

/-- The delivery loop: one `bot.send_message` attempt per batch (outcome
given by the `sendOk` oracle, indexed by the order of send calls in this
pass); on success the price floor of every notification in the batch is
written — `rds.set(key, price)` followed by `rds.expire(key, 90 days)`,
embedded as a `(key, price, ttl-seconds)` triple; on failure the
exception is caught, logged, and nothing is written for that batch. -/
def sendBatches (sendOk : Nat → Bool) :
    List (List Notif) → Nat → List Bool × List (String × ℚ × Nat)
  | [], _ => ([], [])
  | batch :: rest, idx =>
    let ok := sendOk idx
    let writes :=
      if ok then batch.map (fun n => (n.tracking_key, n.new_price, 90 * 24 * 60 * 60))
      else []
    let r := sendBatches sendOk rest (idx + 1)
    (ok :: r.1, writes ++ r.2)

/-! Section WatchScheduler: one pass over one subscription -/

/-- Embedding of `SubscriptionsRepo.bump_next_check` (repo_subscriptions.py lines
64-79): set `last_checked_at = now` and
`next_check_at = now + check_interval_minutes` (timestamps in minutes). -/
def bump_next_check (now : Nat) (sub : FlightSubscription) : FlightSubscription :=
  { sub with last_checked_at := some now,
             next_check_at := some (now + sub.check_interval_minutes) }

/-- The worker's external collaborators during one pass, as oracles:
the current date and clock, the pricing API keyed by month token, the
delivery channel (success of the n-th send call of the pass), and the
Redis price-floor cache. -/
structure Env where
  today : Date
  now : Nat
  fetch : String → Except String (List Offer)
  sendOk : Nat → Bool
  cache : String → Option ℚ

/-- Observable effects of one `process_subscription` pass. -/
structure PassResult where
  expiryNotices : List Nat
  expirySendOk : Option Bool
  fetchedMonths : List String
  collected : List Notif
  batchSends : List (List Notif)
  batchResults : List Bool
  cacheWrites : List (String × ℚ × Nat)
  deleted : Bool
  subAfter : Option FlightSubscription
deriving Repr

/-- Embedding of `process_subscription` (worker.py lines 195-475) as a pure function
from the oracle environment to the pass's observable effects.  Expired
subscriptions (`range_to < today`) get one expiry-notice send attempt —
whose failure is caught and logged — and are deleted, with no fetching,
no cache activity and no rescheduling.  Otherwise the months of the
range are processed, queued notifications are delivered in batches and
the schedule is advanced unconditionally.  (Message formatting and the
airport/airline display-name lookups are display-only and not part of
the embedded state.) -/
def process_subscription (env : Env) (sub : FlightSubscription) : PassResult :=
  if dateLt sub.range_to env.today then
    { expiryNotices := [sub.user_id], expirySendOk := some (env.sendOk 0),
      fetchedMonths := [], collected := [], batchSends := [], batchResults := [],
      cacheWrites := [], deleted := true, subAfter := none }
  else
    let months := month_span sub.range_from sub.range_to
    let collectedFetched := collectMonths env.fetch env.cache sub months []
    let batches := chunk5 collectedFetched.1
    let sent := sendBatches env.sendOk batches 0
    { expiryNotices := [], expirySendOk := none,
      fetchedMonths := collectedFetched.2, collected := collectedFetched.1,
      batchSends := batches, batchResults := sent.1, cacheWrites := sent.2,
      deleted := false, subAfter := some (bump_next_check env.now sub) }

/-! Section Concrete fixtures used by witness and counterexample theorems -/

/-- A fixture offer: priced 970, departing 2025-10-20 09:30. -/
def offerA : Offer :=
  Offer.mk (some 970) (some (DateTime.mk (Date.mk 2025 10 20) 9 30)) (some "SU")
    (some 0) (some 120) (some "LED") (some "MOW") (some "/x")

/-- A fixture subscription: LED→MOW, 2025-10-15 .. 2025-12-20, ceiling 1500. -/
def subA : FlightSubscription :=
  FlightSubscription.mk 7 42 "LED" "MOW" (Date.mk 2025 10 15) (Date.mk 2025 12 20)
    true 1500 "RUB" 5 true none none

/-- A fixture environment: 2025-10-01, one offer in October, empty cache,
all sends succeed. -/
def envA : Env :=
  Env.mk (Date.mk 2025 10 1) 1000
    (fun m => if m = "2025-10" then .ok [offerA] else .ok [])
    (fun _ => true) (fun _ => none)

/-- The invariant carried through the grouping fold. -/
def groupedOk (sub : FlightSubscription) (k : String) (o : Offer) : Prop :=
  ∃ p dt, o.price = some p ∧ p ≤ sub.max_price ∧ o.departure_at = some dt ∧
    dateLe sub.range_from dt.date = true ∧ dateLe dt.date sub.range_to = true ∧
    k = dateStr dt.date

/-! Section Fixture environments for the expiry and failed-delivery passes -/

/-- An environment whose current date lies past the fixture
subscription's range, with failing delivery and a dead pricing API. -/
def envExp : Env :=
  Env.mk (Date.mk 2026 1 1) 1000 (fun _ => Except.error "down") (fun _ => false)
    (fun _ => none)

/-- An environment with one October offer, empty cache, and a delivery
channel that always fails. -/
def envFailSend : Env :=
  Env.mk (Date.mk 2025 10 1) 1000
    (fun m => if m = "2025-10" then Except.ok [offerA] else Except.ok [])
    (fun _ => false) (fun _ => none)

/-! Section Fixture attempt oracle for the pricing-client claims -/

/-- Attempt oracle whose first answer is a transient 502 and whose
second answer is a successful 200. -/
def attemptsTransient : Nat → HttpOutcome :=
  fun i => if i = 0 then HttpOutcome.response 502 [] else HttpOutcome.response 200 [offerA]

theorem ymOfIdx_mIdx {ym : Nat × Nat} (h : validYM ym) :
    ymOfIdx (mIdx ym) = ym := by
  obtain ⟨y, m⟩ := ym
  have h1 : 1 ≤ m := h.1
  have h2 : m ≤ 12 := h.2
  show ((y * 12 + (m - 1)) / 12, (y * 12 + (m - 1)) % 12 + 1) = (y, m)
  have hm : m - 1 < 12 := by omega
  have hdiv : (y * 12 + (m - 1)) / 12 = y := by
    rw [Nat.mul_comm y 12, Nat.mul_add_div (by norm_num)]
    have : (m - 1) / 12 = 0 := Nat.div_eq_of_lt hm
    omega
  have hmod : (y * 12 + (m - 1)) % 12 = m - 1 := by
    rw [Nat.mul_comm y 12, Nat.mul_add_mod]
    exact Nat.mod_eq_of_lt hm
  rw [hdiv, hmod]
  simp only [Prod.mk.injEq]
  exact ⟨trivial, by omega⟩

theorem validYM_ymOfIdx (n : Nat) : validYM (ymOfIdx n) := by
  have := Nat.mod_lt n (show 0 < 12 by norm_num)
  show 1 ≤ n % 12 + 1 ∧ n % 12 + 1 ≤ 12
  omega

theorem mIdx_next_month {ym : Nat × Nat} (h : validYM ym) :
    mIdx (next_month ym) = mIdx ym + 1 ∧ validYM (next_month ym) := by
  obtain ⟨y, m⟩ := ym
  have h1 : 1 ≤ m := h.1
  have h2 : m ≤ 12 := h.2
  by_cases hm : m = 12
  · subst hm
    refine ⟨?_, ?_, ?_⟩
    all_goals simp [next_month, mIdx, validYM]
    all_goals omega
  · have hbeq : (m == 12) = false := by simp [hm]
    constructor
    · simp only [next_month, mIdx, hbeq, Bool.false_eq_true, if_false]
      omega
    · simp only [next_month, validYM, hbeq, Bool.false_eq_true, if_false]
      exact ⟨by omega, by omega⟩

theorem monthLe_iff {a b : Nat × Nat} (ha : validYM a) (hb : validYM b) :
    monthLe a b = true ↔ mIdx a ≤ mIdx b := by
  obtain ⟨y1, m1⟩ := a
  obtain ⟨y2, m2⟩ := b
  obtain ⟨ha1, ha2⟩ := ha
  obtain ⟨hb1, hb2⟩ := hb
  simp only [monthLe, mIdx, Bool.or_eq_true, Bool.and_eq_true, decide_eq_true_eq,
    beq_iff_eq, Nat.lt_iff_add_one_le]
  omega

/-- Characterisation of the `month_span` loop: with sufficient fuel it
returns exactly the months with indices `mIdx cur .. mIdx last`. -/
theorem month_span_go_eq :
    ∀ (fuel : Nat) (a b : Nat × Nat), validYM a → validYM b →
    mIdx b + 1 - mIdx a ≤ fuel →
    month_span_go fuel a b =
      (List.range (mIdx b + 1 - mIdx a)).map (fun i => ymOfIdx (mIdx a + i)) := by
  intro fuel
  induction fuel with
  | zero =>
    intro a b _ _ hf
    have : mIdx b + 1 - mIdx a = 0 := Nat.le_zero.mp hf
    simp [month_span_go, this]
  | succ fuel ih =>
    intro a b ha hb hf
    by_cases hle : monthLe a b = true
    · have hidx : mIdx a ≤ mIdx b := (monthLe_iff ha hb).mp hle
      obtain ⟨hnext, hvnext⟩ := mIdx_next_month ha
      have hcnt : mIdx b + 1 - mIdx a = (mIdx b + 1 - (mIdx a + 1)) + 1 := by omega
      rw [month_span_go, if_pos hle, hcnt, List.range_succ_eq_map]
      simp only [List.map_cons, List.map_map]
      congr 1
      · rw [Nat.add_zero, ymOfIdx_mIdx ha]
      · rw [ih (next_month a) b hvnext hb (by omega), hnext]
        apply List.map_congr_left
        intro i _
        simp only [Function.comp_apply]
        congr 1
        omega
    · have hidx : ¬ mIdx a ≤ mIdx b := fun h => hle ((monthLe_iff ha hb).mpr h)
      have : mIdx b + 1 - mIdx a = 0 := by omega
      rw [month_span_go, if_neg hle, this]
      simp

theorem month_pairs_eq (d1 d2 : Date) (h1 : validDate d1) (h2 : validDate d2) :
    month_pairs d1 d2 =
      (List.range (mIdx (d2.year, d2.month) + 1 - mIdx (d1.year, d1.month))).map
        (fun i => ymOfIdx (mIdx (d1.year, d1.month) + i)) := by
  apply month_span_go_eq
  · exact ⟨h1.1, h1.2.1⟩
  · exact ⟨h2.1, h2.2.1⟩
  · simp only [mIdx]
    have := h2.2.1
    omega

/-- Monotonicity of `dateLe` at the month level: an earlier-or-equal date has an
earlier-or-equal month index. -/
theorem mIdx_mono {a b : Date} (ha : validDate a) (hb : validDate b)
    (h : dateLe a b = true) :
    mIdx (a.year, a.month) ≤ mIdx (b.year, b.month) := by
  have ha2 : a.month ≤ 12 := ha.2.1
  have hb1 : 1 ≤ b.month := hb.1
  simp only [dateLe, dateLt, Bool.or_eq_true, Bool.and_eq_true, decide_eq_true_eq,
    beq_iff_eq] at h
  show a.year * 12 + (a.month - 1) ≤ b.year * 12 + (b.month - 1)
  rcases h with (h | ⟨hy, h | ⟨hm, _⟩⟩) | h
  · omega
  · omega
  · omega
  · rw [h]

/-- Strict month-index order between distinct valid months is the
lexicographic order on (year, month). -/
theorem mIdx_lt_iff {a b : Nat × Nat} (ha : validYM a) (hb : validYM b) :
    mIdx a < mIdx b ↔ (a.1 < b.1 ∨ (a.1 = b.1 ∧ a.2 < b.2)) := by
  obtain ⟨y1, m1⟩ := a
  obtain ⟨y2, m2⟩ := b
  obtain ⟨ha1, ha2⟩ := ha
  obtain ⟨hb1, hb2⟩ := hb
  simp only [mIdx]
  omega

theorem monthLt_iff (a b : Nat × Nat) :
    monthLt a b = true ↔ (a.1 < b.1 ∨ (a.1 = b.1 ∧ a.2 < b.2)) := by
  simp [monthLt, Bool.or_eq_true, Bool.and_eq_true, decide_eq_true_eq, beq_iff_eq]

theorem dateLt_iff (a b : Date) : dateLt a b = true ↔
    (a.year < b.year ∨ (a.year = b.year ∧
      (a.month < b.month ∨ (a.month = b.month ∧ a.day < b.day)))) := by
  simp [dateLt, Bool.or_eq_true, Bool.and_eq_true, decide_eq_true_eq, beq_iff_eq]

theorem dateLe_iff (a b : Date) : dateLe a b = true ↔ (dateLt a b = true ∨ a = b) := by
  simp [dateLe, Bool.or_eq_true, beq_iff_eq]

theorem mIdx_ymOfIdx (n : Nat) : mIdx (ymOfIdx n) = n := by
  show n / 12 * 12 + (n % 12 + 1 - 1) = n
  omega

theorem dateLe_refl (a : Date) : dateLe a a = true := by
  simp [dateLe]

/-- C2: for every inclusive date interval `[d1, d2]` with `d1 ≤ d2`,
`month_span` returns the token rendering of a strictly ascending
(hence duplicate-free) sequence of (year, month) pairs that covers every
day of the interval (every date in the interval has its month in the
list) and is minimal (every listed month contains a day of the
interval); a single-day interval yields exactly one token.  The
function is a total Lean function (pure, no failure mode). -/
theorem month_span_covers_minimally (d1 d2 : Date)
    (h1 : validDate d1) (h2 : validDate d2) (hle : dateLe d1 d2 = true) :
    month_span d1 d2 = (month_pairs d1 d2).map (fun ym => fmtYM ym.1 ym.2) ∧
    month_pairs d1 d2 ≠ [] ∧
    List.Pairwise (fun a b => monthLt a b = true) (month_pairs d1 d2) ∧
    (∀ d : Date, validDate d → dateLe d1 d = true → dateLe d d2 = true →
      (d.year, d.month) ∈ month_pairs d1 d2) ∧
    (∀ ym ∈ month_pairs d1 d2, ∃ d : Date, validDate d ∧ dateLe d1 d = true ∧
      dateLe d d2 = true ∧ (d.year, d.month) = ym) ∧
    (d1 = d2 → (month_span d1 d2).length = 1) := by
  have hv1 : validYM (d1.year, d1.month) := ⟨h1.1, h1.2.1⟩
  have hv2 : validYM (d2.year, d2.month) := ⟨h2.1, h2.2.1⟩
  have hidx : mIdx (d1.year, d1.month) ≤ mIdx (d2.year, d2.month) :=
    mIdx_mono h1 h2 hle
  have heq := month_pairs_eq d1 d2 h1 h2
  set i1 := mIdx (d1.year, d1.month) with hi1
  set i2 := mIdx (d2.year, d2.month) with hi2
  have hcnt : i2 + 1 - i1 = (i2 - i1) + 1 := by omega
  refine ⟨rfl, ?_, ?_, ?_, ?_, ?_⟩
  · rw [heq]
    simp only [ne_eq, List.map_eq_nil_iff, List.range_eq_nil]
    omega
  · rw [heq]
    rw [List.pairwise_map]
    refine List.Pairwise.imp ?_ (List.pairwise_lt_range _)
    intro a b hab
    rw [monthLt_iff]
    rw [← mIdx_lt_iff (validYM_ymOfIdx _) (validYM_ymOfIdx _)]
    rw [mIdx_ymOfIdx, mIdx_ymOfIdx]
    omega
  · intro d hd hled1 hled2
    have hvd : validYM (d.year, d.month) := ⟨hd.1, hd.2.1⟩
    have hlo : i1 ≤ mIdx (d.year, d.month) := mIdx_mono h1 hd hled1
    have hhi : mIdx (d.year, d.month) ≤ i2 := mIdx_mono hd h2 hled2
    rw [heq]
    rw [List.mem_map]
    refine ⟨mIdx (d.year, d.month) - i1, ?_, ?_⟩
    · rw [List.mem_range]
      omega
    · have : i1 + (mIdx (d.year, d.month) - i1) = mIdx (d.year, d.month) := by omega
      rw [this, ymOfIdx_mIdx hvd]
  · intro ym hym
    rw [heq, List.mem_map] at hym
    obtain ⟨i, hi, hfi⟩ := hym
    rw [List.mem_range] at hi
    have hymv : validYM ym := hfi ▸ validYM_ymOfIdx (i1 + i)
    have hymidx : mIdx ym = i1 + i := by rw [← hfi, mIdx_ymOfIdx]
    by_cases hfirst : ym = (d1.year, d1.month)
    · exact ⟨d1, h1, dateLe_refl d1, hle, by rw [hfirst]⟩
    · have hgt : i1 < mIdx ym := by
        rcases Nat.lt_or_ge i1 (mIdx ym) with h | h
        · exact h
        · exfalso
          apply hfirst
          have : mIdx ym = i1 := by omega
          rw [← ymOfIdx_mIdx hymv, this, hi1, ymOfIdx_mIdx hv1]
      refine ⟨⟨ym.1, ym.2, 1⟩,
        ⟨hymv.1, hymv.2, Nat.le_refl 1, show (1 : Nat) ≤ 31 by norm_num⟩, ?_, ?_, rfl⟩
      · rw [dateLe_iff]
        left
        rw [dateLt_iff]
        rcases (mIdx_lt_iff hv1 hymv).mp hgt with h' | ⟨hy', hm'⟩
        · exact Or.inl h'
        · exact Or.inr ⟨hy', Or.inl hm'⟩
      · have hhi : mIdx ym ≤ i2 := by omega
        rcases Nat.lt_or_ge (mIdx ym) i2 with h | h
        · rw [dateLe_iff]
          left
          rw [dateLt_iff]
          have := (mIdx_lt_iff hymv hv2).mp h
          rcases this with h' | h'
          · left; exact h'
          · right; exact ⟨h'.1, Or.inl h'.2⟩
        · have heq2 : mIdx ym = i2 := by omega
          have hym2 : ym = (d2.year, d2.month) := by
            rw [← ymOfIdx_mIdx hymv, heq2, hi2, ymOfIdx_mIdx hv2]
          rw [dateLe_iff]
          by_cases hday : d2.day = 1
          · right
            rw [hym2]
            cases d2
            simp_all
          · left
            rw [dateLt_iff, hym2]
            right
            refine ⟨rfl, Or.inr ⟨rfl, ?_⟩⟩
            show 1 < d2.day
            have := h2.2.2.1
            omega
  · intro hdd
    subst hdd
    unfold month_span
    rw [heq]
    simp only [List.length_map, List.length_range]
    omega

/-- Witness for C2 at the spec's example interval. -/
theorem month_span_covers_minimally_witness :
    month_span ⟨2025, 10, 15⟩ ⟨2025, 12, 20⟩ = ["2025-10", "2025-11", "2025-12"] ∧
    month_pairs ⟨2025, 10, 15⟩ ⟨2025, 12, 20⟩ ≠ [] := by
  have h := month_span_covers_minimally ⟨2025, 10, 15⟩ ⟨2025, 12, 20⟩
    (by decide) (by decide) (by decide)
  exact ⟨by decide, h.2.1⟩

/-! Section Helper lemmas on date comparison, filtering and grouping -/

theorem dateLt_false_iff (a b : Date) : dateLt a b = false ↔ dateLe b a = true := by
  cases a with
  | mk ay am ad =>
    cases b with
    | mk yb mb db =>
      simp only [dateLt, dateLe, Bool.or_eq_true, Bool.and_eq_true, decide_eq_true_eq,
        beq_iff_eq, Bool.or_eq_false_iff, Bool.and_eq_false_iff, decide_eq_false_iff_not,
        not_lt, Date.mk.injEq, beq_eq_false_iff_ne, ne_eq]
      omega

/-- What survival of the filter means for one offer. -/
theorem keepOffer_spec (sub : FlightSubscription) (o : Offer) (d : Date)
    (h : keepOffer sub o = some d) :
    ∃ p dt, o.price = some p ∧ p ≤ sub.max_price ∧ o.departure_at = some dt ∧
      dt.date = d ∧ dateLe sub.range_from d = true ∧ dateLe d sub.range_to = true := by
  cases hp : o.price with
  | none => simp [keepOffer, hp] at h
  | some p =>
    cases hd : o.departure_at with
    | none => simp [keepOffer, hp, hd] at h
    | some dt =>
      simp only [keepOffer, hp, hd] at h
      split_ifs at h with hmax hout
      have hdd : dt.date = d := Option.some_inj.mp h
      rw [Bool.or_eq_true] at hout
      push_neg at hout
      obtain ⟨h1, h2⟩ := hout
      have h1' : dateLt dt.date sub.range_from = false := by simpa using h1
      have h2' : dateLt sub.range_to dt.date = false := by simpa using h2
      refine ⟨p, dt, rfl, not_lt.mp hmax, rfl, hdd, ?_, ?_⟩
      · rw [← hdd]
        exact (dateLt_false_iff _ _).mp h1'
      · rw [← hdd]
        exact (dateLt_false_iff _ _).mp h2'

/-- Updating via `insertGroup` preserves a per-group, per-member property. -/
theorem insertGroup_pres (Q : String → Offer → Prop) (gs : List (String × List Offer))
    (k : String) (o : Offer)
    (hgs : ∀ g ∈ gs, ∀ x ∈ g.2, Q g.1 x) (ho : Q k o) :
    ∀ g ∈ insertGroup gs k o, ∀ x ∈ g.2, Q g.1 x := by
  induction gs with
  | nil =>
    intro g hg x hx
    simp only [insertGroup, List.mem_singleton] at hg
    subst hg
    simp only [List.mem_singleton] at hx
    subst hx
    exact ho
  | cons hd tl ih =>
    obtain ⟨k', os⟩ := hd
    intro g hg x hx
    by_cases hk : k' = k
    · simp only [insertGroup, if_pos hk] at hg
      rcases List.mem_cons.mp hg with hg | hg
      · subst hg
        rcases List.mem_append.mp hx with hx | hx
        · exact hgs (k', os) (List.mem_cons_self _ _) x hx
        · simp only [List.mem_singleton] at hx
          subst hx
          exact hk ▸ ho
      · exact hgs g (List.mem_cons_of_mem _ hg) x hx
    · simp only [insertGroup, if_neg hk] at hg
      rcases List.mem_cons.mp hg with hg | hg
      · subst hg
        exact hgs (k', os) (List.mem_cons_self _ _) x hx
      · exact ih (fun g' hg' => hgs g' (List.mem_cons_of_mem _ hg')) g hg x hx

theorem groupOffers_fold_sound (sub : FlightSubscription) (offers : List Offer) :
    ∀ (acc : List (String × List Offer)),
      (∀ g ∈ acc, ∀ x ∈ g.2, groupedOk sub g.1 x) →
      ∀ g ∈ offers.foldl
        (fun gs o =>
          match keepOffer sub o with
          | none => gs
          | some d => insertGroup gs (dateStr d) o) acc,
        ∀ x ∈ g.2, groupedOk sub g.1 x := by
  induction offers with
  | nil => intro acc hacc; exact hacc
  | cons o rest ih =>
    intro acc hacc
    simp only [List.foldl_cons]
    cases hk : keepOffer sub o with
    | none => exact ih acc hacc
    | some d =>
      apply ih
      apply insertGroup_pres _ _ _ _ hacc
      obtain ⟨p, dt, hp, hpmax, hdep, hdd, hlo, hhi⟩ := keepOffer_spec sub o d hk
      exact ⟨p, dt, hp, hpmax, hdep, hdd ▸ hlo, hdd ▸ hhi, by rw [hdd]⟩

/-- C6: the filtering stage never keeps an offer with a missing price or
missing departure timestamp, a price strictly above `max_price`, or a
departure date outside `[range_from, range_to]`; every surviving offer
sits in the group keyed by the `YYYY-MM-DD` rendering of the calendar
date of its departure timestamp. -/
theorem groupOffers_sound (sub : FlightSubscription) (offers : List Offer) :
    ∀ g ∈ groupOffers sub offers, ∀ o ∈ g.2,
      ∃ p dt, o.price = some p ∧ p ≤ sub.max_price ∧ o.departure_at = some dt ∧
        dateLe sub.range_from dt.date = true ∧ dateLe dt.date sub.range_to = true ∧
        g.1 = dateStr dt.date := by
  intro g hg o ho
  exact groupOffers_fold_sound sub offers [] (by intro g hg; exact absurd hg (by simp))
    g hg o ho

/-- Witness for C6: the fixture offer survives into the group keyed by
its departure date. -/
theorem groupOffers_sound_witness :
    ∃ p dt, offerA.price = some p ∧ p ≤ subA.max_price ∧ offerA.departure_at = some dt ∧
      dateLe subA.range_from dt.date = true ∧ dateLe dt.date subA.range_to = true ∧
      "2025-10-20" = dateStr dt.date := by
  have hG : groupOffers subA [offerA] = [("2025-10-20", [offerA])] := by rfl
  have h := groupOffers_sound subA [offerA] ("2025-10-20", [offerA])
    (by rw [hG]; exact List.mem_singleton.mpr rfl) offerA (List.mem_singleton.mpr rfl)
  exact h

theorem foldl_minByPrice_le (os : List Offer) :
    ∀ a : Offer,
      priceKey (os.foldl (fun best x => if priceKey x < priceKey best then x else best) a)
          ≤ priceKey a ∧
      ∀ x ∈ os,
        priceKey (os.foldl (fun best x => if priceKey x < priceKey best then x else best) a)
          ≤ priceKey x := by
  induction os with
  | nil =>
    intro a
    exact ⟨le_refl _, by intro x hx; exact absurd hx (List.not_mem_nil x)⟩
  | cons y ys ih =>
    intro a
    simp only [List.foldl_cons]
    obtain ⟨h1, h2⟩ := ih (if priceKey y < priceKey a then y else a)
    have hba : priceKey (if priceKey y < priceKey a then y else a) ≤ priceKey a := by
      split_ifs with hlt
      · exact le_of_lt hlt
      · exact le_refl _
    have hby : priceKey (if priceKey y < priceKey a then y else a) ≤ priceKey y := by
      split_ifs with hlt
      · exact le_refl _
      · exact not_lt.mp hlt
    refine ⟨le_trans h1 hba, ?_⟩
    intro x hx
    rcases List.mem_cons.mp hx with hx | hx
    · subst hx
      exact le_trans h1 hby
    · exact h2 x hx

/-- Python `min(date_offers, key=...)` returns an offer of minimal key. -/
theorem minByPrice_le (l : List Offer) (mo : Offer) (h : minByPrice l = some mo) :
    ∀ o ∈ l, priceKey mo ≤ priceKey o := by
  cases l with
  | nil => cases h
  | cons a os =>
    simp only [minByPrice, Option.some_inj] at h
    intro o ho
    obtain ⟨h1, h2⟩ := foldl_minByPrice_le os a
    rcases List.mem_cons.mp ho with ho | ho
    · subst ho
      rw [← h]
      exact h1
    · rw [← h]
      exact h2 o ho

/-- C1: for a departure date with surviving offers, with `candidate` the
minimum-priced offer of the date, the decision is notify exactly when no
price-floor record exists for the tracking key, or a record `old` exists
with `candidate.price < old` and `(old - candidate.price) / old ≥ 2%`;
any smaller drop, tie or rise is suppressed.  The second conjunct checks
that the chosen candidate is indeed of minimal price among the date's
offers. -/
theorem decideDate_notify_iff (cache : String → Option ℚ) (sub : FlightSubscription)
    (date_str : String) (date_offers : List Offer) (mo : Offer) (p : ℚ)
    (hmin : minByPrice date_offers = some mo) (hp : mo.price = some p) :
    ((decideDate cache sub date_str date_offers).isSome = true ↔
      (cache (price_tracking_key sub.id sub.origin sub.destination date_str sub.direct)
          = none ∨
        ∃ old,
          cache (price_tracking_key sub.id sub.origin sub.destination date_str sub.direct)
            = some old ∧ p < old ∧ (old - p) / old ≥ 2 / 100)) ∧
    (∀ o ∈ date_offers, ∀ q, o.price = some q → p ≤ q) := by
  have hthresh : ∀ old : ℚ, ((old - p) / old * 100 ≥ 2 ↔ (old - p) / old ≥ 2 / 100) := by
    intro old
    constructor <;> intro h <;> linarith
  constructor
  · simp only [decideDate, hmin, hp]
    split
    · rename_i hc
      simp [hc]
    · rename_i old hc
      rw [hc]
      split_ifs with hlt hsig
      · simp only [Option.isSome_some, eq_self_iff_true, true_iff]
        right
        exact ⟨old, rfl, hlt, (hthresh old).mp hsig⟩
      · simp only [Option.isSome_none, Bool.false_eq_true, false_iff]
        rintro (hno | ⟨old', heq, hlt', hsig'⟩)
        · exact hno
        · obtain rfl : old = old' := Option.some_inj.mp heq
          exact hsig ((hthresh old).mpr hsig')
      · simp only [Option.isSome_none, Bool.false_eq_true, false_iff]
        rintro (hno | ⟨old', heq, hlt', _⟩)
        · exact hno
        · obtain rfl : old = old' := Option.some_inj.mp heq
          exact hlt hlt'
  · intro o ho q hq
    have hm := minByPrice_le date_offers mo hmin o ho
    simp only [priceKey, hp, hq] at hm
    exact_mod_cast hm

/-- Witness for C1: stored floor 1000, candidate 970 (a 3% drop) →
notify. -/
theorem decideDate_notify_iff_witness :
    (decideDate (fun _ => some 1000) subA "2025-10-20" [offerA]).isSome = true ∧
    (970 : ℚ) < 1000 ∧ ((1000 : ℚ) - 970) / 1000 ≥ 2 / 100 := by
  have h := decideDate_notify_iff (fun _ => some 1000) subA "2025-10-20" [offerA]
    offerA 970 (by rfl) (by rfl)
  refine ⟨?_, by norm_num, by norm_num⟩
  rw [h.1]
  right
  exact ⟨1000, rfl, by norm_num, by norm_num⟩

/-! Section C4: cap of 10 collected, batches of at most 5 -/

theorem chunk5_go_flatten :
    ∀ (fuel : Nat) (l : List Notif), l.length ≤ fuel →
      (chunk5_go fuel l).flatten = l := by
  intro fuel
  induction fuel with
  | zero =>
    intro l hl
    have : l = [] := List.length_eq_zero.mp (Nat.le_zero.mp hl)
    subst this
    rfl
  | succ fuel ih =>
    intro l hl
    cases l with
    | nil => rfl
    | cons x xs =>
      rw [chunk5_go, List.flatten_cons, ih]
      · exact List.take_append_drop 5 (x :: xs)
      · rw [List.length_drop]
        simp only [List.length_cons] at hl ⊢
        omega

theorem chunk5_flatten (l : List Notif) : (chunk5 l).flatten = l :=
  chunk5_go_flatten l.length l (le_refl _)

theorem chunk5_go_batches :
    ∀ (fuel : Nat) (l : List Notif), ∀ b ∈ chunk5_go fuel l, b ≠ [] ∧ b.length ≤ 5 := by
  intro fuel
  induction fuel with
  | zero =>
    intro l b hb
    simp [chunk5_go] at hb
  | succ fuel ih =>
    intro l b hb
    cases l with
    | nil => simp [chunk5_go] at hb
    | cons x xs =>
      rw [chunk5_go] at hb
      rcases List.mem_cons.mp hb with hb | hb
      · subst hb
        refine ⟨?_, List.length_take_le 5 (x :: xs)⟩
        simp
      · exact ih _ b hb

theorem chunk5_batches (l : List Notif) : ∀ b ∈ chunk5 l, b ≠ [] ∧ b.length ≤ 5 :=
  chunk5_go_batches l.length l

theorem collectGroups_le (cache : String → Option ℚ) (sub : FlightSubscription) :
    ∀ (gs : List (String × List Offer)) (acc : List Notif), acc.length < 10 →
      (collectGroups cache sub gs acc).length ≤ 10 := by
  intro gs
  induction gs with
  | nil =>
    intro acc hacc
    exact le_of_lt hacc
  | cons g rest ih =>
    obtain ⟨ds, os⟩ := g
    intro acc hacc
    simp only [collectGroups]
    split
    · exact ih acc hacc
    · split_ifs with hcap
      · simp only [List.length_append, List.length_singleton]
        omega
      · exact ih _ (lt_of_not_ge hcap)

theorem collectMonths_le (fetch : String → Except String (List Offer))
    (cache : String → Option ℚ) (sub : FlightSubscription) :
    ∀ (ms : List String) (acc : List Notif), acc.length < 10 →
      (collectMonths fetch cache sub ms acc).1.length ≤ 10 := by
  intro ms
  induction ms with
  | nil =>
    intro acc hacc
    exact le_of_lt hacc
  | cons m rest ih =>
    intro acc hacc
    simp only [collectMonths]
    split
    · exact ih acc hacc
    · split_ifs with hcap
      · exact collectGroups_le cache sub _ acc hacc
      · exact ih _ (lt_of_not_ge hcap)

theorem collectMonths_fetched_take (fetch : String → Except String (List Offer))
    (cache : String → Option ℚ) (sub : FlightSubscription) :
    ∀ (ms : List String) (acc : List Notif),
      ∃ k, (collectMonths fetch cache sub ms acc).2 = ms.take k := by
  intro ms
  induction ms with
  | nil =>
    intro acc
    exact ⟨0, rfl⟩
  | cons m rest ih =>
    intro acc
    simp only [collectMonths]
    split
    · obtain ⟨k, hk⟩ := ih acc
      exact ⟨k + 1, by simp [hk]⟩
    · rename_i offers hoff
      split_ifs with hcap
      · exact ⟨1, by simp⟩
      · obtain ⟨k, hk⟩ := ih (collectGroups cache sub (groupOffers sub offers) acc)
        exact ⟨k + 1, by simp [hk]⟩

/-- C4: within one pass of one watch at most 10 notify-worthy candidates
are collected (once the cap is hit the remaining months are skipped:
the fetched months are a prefix of the month list), and the collected
candidates are delivered in batches of at most 5 per outbound message,
in discovery order (the batches concatenate back to the collected
queue). -/
theorem process_cap_and_batches (env : Env) (sub : FlightSubscription)
    (hexp : dateLt sub.range_to env.today = false) :
    (process_subscription env sub).collected.length ≤ 10 ∧
    (process_subscription env sub).batchSends.flatten =
      (process_subscription env sub).collected ∧
    (∀ b ∈ (process_subscription env sub).batchSends, b ≠ [] ∧ b.length ≤ 5) ∧
    (∃ k, (process_subscription env sub).fetchedMonths =
      (month_span sub.range_from sub.range_to).take k) := by
  unfold process_subscription
  rw [if_neg (by simp [hexp])]
  refine ⟨?_, ?_, ?_, ?_⟩
  · exact collectMonths_le _ _ _ _ [] (by simp)
  · exact chunk5_flatten _
  · exact chunk5_batches _
  · exact collectMonths_fetched_take _ _ _ _ []

/-- Witness for C4 on the fixture pass. -/
theorem process_cap_and_batches_witness :
    (process_subscription envA subA).collected.length ≤ 10 ∧
    (process_subscription envA subA).batchSends.flatten =
      (process_subscription envA subA).collected := by
  have h := process_cap_and_batches envA subA (by rfl)
  exact ⟨h.1, h.2.1⟩

/-- C5: a watch whose `range_to` lies strictly before the current date
gets exactly one expiry-notice send attempt addressed to its owner and
is deleted; no month is fetched, no cache write happens, no batch is
sent, and the schedule is not advanced. -/
theorem process_expired (env : Env) (sub : FlightSubscription)
    (hexp : dateLt sub.range_to env.today = true) :
    (process_subscription env sub).expiryNotices = [sub.user_id] ∧
    (process_subscription env sub).deleted = true ∧
    (process_subscription env sub).fetchedMonths = [] ∧
    (process_subscription env sub).cacheWrites = [] ∧
    (process_subscription env sub).batchSends = [] ∧
    (process_subscription env sub).subAfter = none := by
  unfold process_subscription
  rw [if_pos hexp]
  exact ⟨rfl, rfl, rfl, rfl, rfl, rfl⟩

/-- Witness for C5 on the fixture expired pass. -/
theorem process_expired_witness :
    (process_subscription envExp subA).expiryNotices = [42] ∧
    (process_subscription envExp subA).deleted = true ∧
    (process_subscription envExp subA).subAfter = none := by
  have h := process_expired envExp subA (by rfl)
  exact ⟨h.1, h.2.1, h.2.2.2.2.2⟩

/-- C10: on the expiry path the deletion is performed even when the
delivery of the expiry notice fails — the send error is caught, and the
watch is still removed with no schedule advancement. -/
theorem expired_deleted_despite_send_failure (env : Env) (sub : FlightSubscription)
    (hexp : dateLt sub.range_to env.today = true) (hfail : env.sendOk 0 = false) :
    (process_subscription env sub).expirySendOk = some false ∧
    (process_subscription env sub).expiryNotices = [sub.user_id] ∧
    (process_subscription env sub).deleted = true ∧
    (process_subscription env sub).subAfter = none := by
  unfold process_subscription
  rw [if_pos hexp]
  refine ⟨?_, rfl, rfl, rfl⟩
  rw [hfail]

/-- Witness for C10: the fixture expired pass with failing delivery. -/
theorem expired_deleted_despite_send_failure_witness :
    (process_subscription envExp subA).expirySendOk = some false ∧
    (process_subscription envExp subA).deleted = true := by
  have h := expired_deleted_despite_send_failure envExp subA (by rfl) (by rfl)
  exact ⟨h.1, h.2.2.1⟩

/-! Section C5, C10, C8: the expiry path and schedule advancement -/

/-- C8: for a non-expired watch the pass always ends by setting
`last_checked_at = now` and `next_check_at = now + check_interval`
(and never deletes the watch), for every environment — in particular
when every fetch failed and zero notifications were sent. -/
theorem schedule_always_advanced (env : Env) (sub : FlightSubscription)
    (hexp : dateLt sub.range_to env.today = false) :
    (process_subscription env sub).subAfter =
      some { sub with last_checked_at := some env.now,
                      next_check_at := some (env.now + sub.check_interval_minutes) } ∧
    (process_subscription env sub).deleted = false := by
  unfold process_subscription
  rw [if_neg (by simp [hexp])]
  exact ⟨rfl, rfl⟩

/-- Witness for C8: every month's fetch fails and no notification is
sent, yet the schedule advances to `now + interval` (1000 + 5). -/
theorem schedule_always_advanced_witness :
    (process_subscription { envExp with today := Date.mk 2025 10 1 } subA).subAfter =
      some { subA with last_checked_at := some 1000, next_check_at := some 1005 } ∧
    (process_subscription { envExp with today := Date.mk 2025 10 1 } subA).collected = [] := by
  have h := schedule_always_advanced { envExp with today := Date.mk 2025 10 1 } subA (by rfl)
  exact ⟨h.1, rfl⟩

/-! Section C9: a failing month is skipped in isolation -/

/-- Replacing one month's fetch result by an error behaves exactly like
that month returning an empty offer list: no candidate comes from it and
the loop continues with the remaining months. -/
theorem collectMonths_skip_failed (fetch : String → Except String (List Offer))
    (cache : String → Option ℚ) (sub : FlightSubscription) (mfail e : String) :
    ∀ (ms : List String) (acc : List Notif), acc.length < 10 →
      collectMonths (fun m => if m = mfail then Except.error e else fetch m) cache sub ms acc =
      collectMonths (fun m => if m = mfail then Except.ok [] else fetch m) cache sub ms acc := by
  intro ms
  induction ms with
  | nil =>
    intro acc _
    rfl
  | cons m rest ih =>
    intro acc hacc
    by_cases hm : m = mfail
    · simp only [collectMonths, if_pos hm]
      have hgrp : collectGroups cache sub (groupOffers sub []) acc = acc := rfl
      rw [hgrp, if_neg (by omega)]
      rw [ih acc hacc]
    · simp only [collectMonths, if_neg hm]
      cases hf : fetch m with
      | error err =>
        simp only []
        rw [ih acc hacc]
      | ok offers =>
        simp only []
        split_ifs with hcap
        · rfl
        · rw [ih _ (lt_of_not_ge hcap)]

/-- C9: a fetch failure for one month of a watch skips only that month:
the pass is identical to the pass in which that month merely returned no
offers (every other month is still fetched, filtered and considered),
and the watch's schedule is still advanced at the end. -/
theorem month_fetch_failure_isolated (env : Env) (sub : FlightSubscription)
    (mfail e : String) (hexp : dateLt sub.range_to env.today = false) :
    process_subscription
        { env with fetch := fun m => if m = mfail then Except.error e else env.fetch m } sub =
      process_subscription
        { env with fetch := fun m => if m = mfail then Except.ok [] else env.fetch m } sub ∧
    (process_subscription
        { env with fetch := fun m => if m = mfail then Except.error e else env.fetch m }
        sub).subAfter = some (bump_next_check env.now sub) := by
  constructor
  · unfold process_subscription
    rw [if_neg (by simp [hexp]), if_neg (by simp [hexp])]
    have hc := collectMonths_skip_failed env.fetch env.cache sub mfail e
      (month_span sub.range_from sub.range_to) [] (by simp)
    dsimp only
    rw [hc]
  · unfold process_subscription
    rw [if_neg (by simp [hexp])]

/-- Witness for C9: November's fetch fails on the fixture pass; the
result is the same as November returning no offers. -/
theorem month_fetch_failure_isolated_witness :
    process_subscription
        { envA with fetch := fun m => if m = "2025-11" then Except.error "boom" else envA.fetch m }
        subA =
      process_subscription
        { envA with fetch := fun m => if m = "2025-11" then Except.ok [] else envA.fetch m }
        subA :=
  (month_fetch_failure_isolated envA subA "2025-11" "boom" (by rfl)).1

/-! Section C7 and C3: cache-write coupling and the absent retry -/

theorem sendBatches_writes (sendOk : Nat → Bool) :
    ∀ (bs : List (List Notif)) (idx : Nat),
      (sendBatches sendOk bs idx).2 =
        ((bs.zip (sendBatches sendOk bs idx).1).map
          (fun p =>
            if p.2 then p.1.map (fun n => (n.tracking_key, n.new_price, 90 * 24 * 60 * 60))
            else [])).flatten := by
  intro bs
  induction bs with
  | nil => intro idx; rfl
  | cons b rest ih =>
    intro idx
    simp only [sendBatches]
    simp only [List.zip_cons_cons, List.map_cons, List.flatten_cons]
    rw [ih (idx + 1)]

/-- C7 (amended): the price-floor cache writes of one pass are exactly
the `(tracking_key, new_price, 90-day TTL)` triples of the candidates in
the batches whose send succeeded — a write happens only for candidates
whose batch delivery was attempted and succeeded; suppressed candidates
(never collected) and candidates in failed batches leave the cache
untouched. -/
theorem cache_writes_iff_delivery_succeeded (env : Env) (sub : FlightSubscription) :
    (process_subscription env sub).cacheWrites =
      (((process_subscription env sub).batchSends.zip
          (process_subscription env sub).batchResults).map
        (fun p =>
          if p.2 then p.1.map (fun n => (n.tracking_key, n.new_price, 90 * 24 * 60 * 60))
          else [])).flatten := by
  unfold process_subscription
  by_cases hexp : dateLt sub.range_to env.today = true
  · rw [if_pos hexp]
    rfl
  · rw [if_neg hexp]
    exact sendBatches_writes env.sendOk _ 0

/-- C7 counterexample: a notify decision is made (one candidate is
collected), its batch delivery is attempted (one batch, whose send
fails), yet no cache record is written — refuting the claim that after
a notify decision the record is overwritten for candidates whose batch
delivery was attempted. -/
theorem cache_write_missing_on_attempted_delivery :
    (process_subscription envFailSend subA).collected.length = 1 ∧
    (process_subscription envFailSend subA).batchSends.length = 1 ∧
    (process_subscription envFailSend subA).batchResults = [false] ∧
    (process_subscription envFailSend subA).cacheWrites = [] := by
  exact ⟨rfl, rfl, rfl, rfl⟩

/-- C3 counterexample: on a first-attempt 502 the source's
`fetch_prices_for_month` raises immediately (one attempt, no retry),
while the spec's retrying client would consume a second attempt and
succeed. -/
theorem fetch_no_retry_counterexample :
    fetch_prices_for_month attemptsTransient =
      Except.error ("Aviasales " ++ toString 502) ∧
    fetch_with_retry_spec attemptsTransient = (Except.ok [offerA], 2) := by
  exact ⟨rfl, rfl⟩

/-- C3 (amended): each per-month fetch makes exactly one attempt — the
result depends only on attempt 0; any non-200 status (502/503 included)
raises immediately with no retry, a timeout propagates as an error, and
a 200 returns the `data` array. -/
theorem fetch_single_attempt (attempts attempts' : Nat → HttpOutcome)
    (h0 : attempts 0 = attempts' 0) :
    fetch_prices_for_month attempts = fetch_prices_for_month attempts' ∧
    (∀ st data, attempts 0 = HttpOutcome.response st data → st ≠ 200 →
      fetch_prices_for_month attempts = Except.error ("Aviasales " ++ toString st)) ∧
    (attempts 0 = HttpOutcome.timeout →
      fetch_prices_for_month attempts = Except.error "timeout") ∧
    (∀ data, attempts 0 = HttpOutcome.response 200 data →
      fetch_prices_for_month attempts = Except.ok data) := by
  refine ⟨?_, ?_, ?_, ?_⟩
  · unfold fetch_prices_for_month
    rw [h0]
  · intro st data h hne
    unfold fetch_prices_for_month
    rw [h]
    simp [hne]
  · intro h
    unfold fetch_prices_for_month
    rw [h]
  · intro data h
    unfold fetch_prices_for_month
    rw [h]
    simp

/-- Witness for the amended C3 on the transient-first oracle. -/
theorem fetch_single_attempt_witness :
    fetch_prices_for_month attemptsTransient =
      Except.error ("Aviasales " ++ toString 502) :=
  (fetch_single_attempt attemptsTransient attemptsTransient rfl).2.1 502 [] rfl (by decide)
